import Mathlib

/-!
Shallow embedding of the content-addressed conversion cache of the
`convertion_api` repository (files `src/util/cache.py`, `src/server.py`,
`src/util/ffmpegHelper.py`), together with theorems settling the
specification claims about it.

Modelling conventions:
* the on-disk cache tree is a finite association list `Cache` mapping a
  content hash (the directory name) to a directory `Dir`, itself an
  association list from file name to file content;
* file bytes are `List Nat`; timestamps (`time.time()` values and the
  `expiry_date` field of `metadata.json`) are rationals `ℚ`;
* a `metadata.json` written by `cache_file` always carries a numeric
  `expiry_date`, a base `filename` and a `file_ext`, so the embedded
  metadata record `Meta` has exactly those fields;
* Python exceptions are `Except` errors; an `HTTPException` raised by a
  handler is one of the `HttpError` constructors (400/404/410/500);
* `os.listdir` iteration order is the order of the association list.
-/

namespace ConvertionApi

/-- Python `s.endswith(suffix)` for the ASCII names used by the cache. -/
def strEndsWith (s suffix : String) : Bool :=
  suffix.toList.isSuffixOf s.toList

/-- Python `s.split('.')[0]`: the characters before the first dot. -/
def takeBeforeDot (s : String) : String :=
  String.mk (s.toList.takeWhile (fun c => !(c == '.')))

/-- Python `str.lower` restricted to ASCII, which is all the upload
extensions and quality names contain. -/
def charLower (c : Char) : Char :=
  if 65 ≤ c.toNat ∧ c.toNat ≤ 90 then Char.ofNat (c.toNat + 32) else c

/-- Python `s.lower()` (ASCII). -/
def strLower (s : String) : String :=
  String.mk (s.toList.map charLower)

/-- Python `os.path.splitext` for a plain file name (no path
separators): splits at the last dot unless every character before that
dot is itself a dot (hidden files such as `.bashrc` keep no
extension). -/
def splitext (s : String) : String × String :=
  let cs := s.toList
  let tailLen := (cs.reverse.takeWhile (fun c => !(c == '.'))).length
  if tailLen = cs.length then (s, "")
  else
    let i := cs.length - tailLen - 1
    if (cs.take i).all (fun c => c == '.') then (s, "")
    else (String.mk (cs.take i), String.mk (cs.drop i))

/-- The record serialized to `metadata.json` by `cache_file`
(`src/util/cache.py`): expiry timestamp, base filename (without
extension) and the original extension (with leading dot). -/
structure Meta where
  expiry_date : ℚ
  filename : String
  file_ext : String
deriving DecidableEq, Repr

/-- Content of one file inside an entry directory: either raw payload
bytes or a parsed `metadata.json` record. -/
inductive FsFile where
  | bin (data : List Nat)
  | json (meta : Meta)
deriving DecidableEq, Repr

/-- One cache entry directory: file name to file content, in
`os.listdir` order. -/
abbrev Dir := List (String × FsFile)

/-- The cache root: content hash (directory name) to directory
contents, in `os.listdir` order. -/
abbrev Cache := List (String × Dir)

/-- Opening a file of a directory by name (`open(f"{folder}/{name}")`). -/
def lookupFile (name : String) (d : Dir) : Option FsFile :=
  (d.find? (fun p => p.1 == name)).map Prod.snd

/-- Resolving an entry directory by hash
(`os.path.exists(f"cache/{hash}")` plus reading it). -/
def lookupDir (h : String) (c : Cache) : Option Dir :=
  (c.find? (fun p => p.1 == h)).map Prod.snd

/-- `shutil.rmtree` of one entry directory: the hash disappears from
the cache tree. -/
def removeDir (h : String) (c : Cache) : Cache :=
  c.filter (fun p => !(p.1 == h))

/-- The `CachedFile` dataclass of `src/util/cache.py`. -/
structure CachedFile where
  filename : String
  video_file_hash : String
  expiry_date : ℚ
  file_bytes : List Nat
  file_ext : String
deriving DecidableEq, Repr

/-- The `ext` argument of `find_file`, a `Literal['mp3', 'video']`. -/
inductive FileKind where
  | mp3
  | video
deriving DecidableEq, Repr

/-- The file name `find_file` opens:
`f"{meta['filename']}.{ext}"` when `ext == 'mp3'`, otherwise
`meta['filename'] + meta['file_ext']`. -/
def targetName (meta : Meta) : FileKind → String
  | .mp3 => meta.filename ++ "." ++ "mp3"
  | .video => meta.filename ++ meta.file_ext

/-- Failure modes of `find_file`: the `HTTPException(410, ...)` raised
on expiry, or an OS-level error (file missing where the code expects
it, unreadable metadata). -/
inductive FindErr where
  | expired
  | oserror
deriving DecidableEq, Repr

/-- `find_file` of `src/util/cache.py`: returns `none` when the entry
directory is missing or does not have exactly 3 members; raises the
410 `Expired` error and deletes the directory when the stored
`expiry_date` is in the past; otherwise reads the requested payload
and returns the populated `CachedFile`. The second component is the
cache tree after the call (changed only by the expiry deletion). -/
def find_file (c : Cache) (h : String) (kind : FileKind) (now : ℚ) :
    Except FindErr (Option CachedFile) × Cache :=
  match lookupDir h c with
  | some d =>
    if d.length = 3 then
      match lookupFile "metadata.json" d with
      | some (.json meta) =>
        if meta.expiry_date < now then
          (.error .expired, removeDir h c)
        else
          match lookupFile (targetName meta kind) d with
          | some (.bin data) =>
            (.ok (some ⟨meta.filename, h, meta.expiry_date, data, meta.file_ext⟩), c)
          | _ => (.error .oserror, c)
      | _ => (.error .oserror, c)
    else (.ok none, c)
  | none => (.ok none, c)

/-- One pass of the `view_info` scan loop of `src/util/cache.py` over
the entry directories. Per folder: a directory with more than 3
members is skipped (`if len(os.listdir(...)) > 3: continue` — note the
code skips only directories with MORE than 3 members, not ones with
fewer); otherwise `metadata.json` is loaded (a missing or unparsable
metadata file raises, which the `except` clause turns into a full
restart of the scan — the `.error` case here); then the first file
whose name does not end in `json` yields one `CachedFile` with
placeholder bytes `b'0'` (the byte 48) and `filename` taken from the
member name split at its first dot. -/
def view_info_pass : Cache → Except Unit (List CachedFile)
  | [] => .ok []
  | (h, d) :: rest =>
    if 3 < d.length then view_info_pass rest
    else
      match lookupFile "metadata.json" d with
      | some (.json meta) =>
        let here : List CachedFile :=
          match d.find? (fun p => !(strEndsWith p.1 "json")) with
          | some (f, _) => [⟨takeBeforeDot f, h, meta.expiry_date, [48], meta.file_ext⟩]
          | none => []
        match view_info_pass rest with
        | .ok l => .ok (here ++ l)
        | .error e => .error e
      | _ => .error ()

/-- `view_info` of `src/util/cache.py`. On any exception the code
executes `return view_info()`, restarting the scan from scratch; on a
cache tree that does not change, that recursion never terminates, so
the embedded result is `none` exactly when a pass raises. -/
def view_info (c : Cache) : Option (List CachedFile) :=
  (view_info_pass c).toOption

/-- Writing (or overwriting) one file inside an entry directory:
an existing name keeps its directory slot, a new name is appended. -/
def dirInsert (d : Dir) (name : String) (f : FsFile) : Dir :=
  if d.any (fun p => p.1 == name) then
    d.map (fun p => if p.1 == name then (name, f) else p)
  else d ++ [(name, f)]

/-- Creating (or reusing, `os.makedirs(..., exist_ok=True)`) the entry
directory for a hash and replacing its contents. -/
def cacheInsert (c : Cache) (h : String) (d : Dir) : Cache :=
  if c.any (fun p => p.1 == h) then
    c.map (fun p => if p.1 == h then (h, d) else p)
  else c ++ [(h, d)]

/-- `cache_file` of `src/util/cache.py`: ensures the hash directory
exists, writes the original payload under the upload's file name, the
converted payload under `<base>.mp3`, and finally `metadata.json` with
`expiry_date = now + 600` (the literal `3600//2//3`), the base name and
the original extension. -/
def cache_file (c : Cache) (h filename : String)
    (file_bytes converted_file_bytes : List Nat) (now : ℚ) : Cache :=
  let d0 := (lookupDir h c).getD []
  let base := (splitext filename).1
  let ext := (splitext filename).2
  let d1 := dirInsert d0 filename (.bin file_bytes)
  let d2 := dirInsert d1 (base ++ ".mp3") (.bin converted_file_bytes)
  let d3 := dirInsert d2 "metadata.json" (.json ⟨now + 600, base, ext⟩)
  cacheInsert c h d3

/-- `expiry_job` of `src/util/cache.py`: walks every entry directory in
order, loads its `metadata.json` with no exception handling (a folder
without readable metadata raises, aborting the whole sweep — the
`.error` result, carrying the cache tree as the aborted sweep leaves
it), and deletes the directory when `expiry_date < now`. -/
def expiry_job (now : ℚ) : Cache → Except Cache Cache
  | [] => .ok []
  | (h, d) :: rest =>
    match lookupFile "metadata.json" d with
    | some (.json meta) =>
      if meta.expiry_date < now then
        expiry_job now rest
      else
        match expiry_job now rest with
        | .ok c => .ok ((h, d) :: c)
        | .error c => .error ((h, d) :: c)
    | _ => .error ((h, d) :: rest)

/-- `QUALITY_MAP` of `src/util/ffmpegHelper.py`: quality name to the
`q:a` value handed to the encoder. -/
def QUALITY_MAP : List (String × Nat) :=
  [("low", 8), ("medium", 5), ("high", 2), ("best", 0)]

/-- `QUALITY_MAP.get(key)` as a partial lookup. -/
def qualityLookup (key : String) : Option Nat :=
  (QUALITY_MAP.find? (fun p => p.1 == key)).map Prod.snd

/-- The `q_value` computed at the start of `diskConvertMp3`:
`QUALITY_MAP.get(quality.lower(), QUALITY_MAP["best"])`. -/
def q_value (quality : String) : Nat :=
  match qualityLookup (strLower quality) with
  | some v => v
  | none => (qualityLookup "best").getD 0

/-- `SUPPORTED_VIDEO_EXTENSIONS` of `src/server.py`. -/
def SUPPORTED_VIDEO_EXTENSIONS : List String :=
  [".mp4", ".mkv", ".avi", ".mov", ".wmv", ".flv", ".webm"]

/-- The `HTTPException` status codes the handlers raise: 400 bad
request, 404 not found, 410 gone (expired), 500 internal server
error. -/
inductive HttpError where
  | badRequest
  | notFound
  | gone
  | serverError
deriving DecidableEq, Repr

/-- Outcome of one call to the `/convert/` handler: the response (the
MP3 bytes on success), whether the external converter was invoked, and
the cache tree afterwards (with the background `cache_file` task, when
scheduled, already completed). -/
structure ConvertResult where
  response : Except HttpError (List Nat)
  converter_invoked : Bool
  cache : Cache
deriving Repr

/-- `convert_file` of `src/server.py`, with the SHA-256 digest and the
external `diskConvertMp3` converter as oracle parameters (`hashFn`
stands for `hashlib.sha256(...).hexdigest()`; `converter` returns
`none` where the Python helper returns `None` or raises). Steps:
reject an unsupported extension with 400 before any hashing; hash the
bytes; `find_file(hash, 'mp3')` — a 410 raised there propagates to the
client, any other exception becomes a 500; on a hit return the stored
bytes without invoking the converter; on a miss invoke the converter,
500 on failure or empty output, else respond with the converted bytes
and schedule the background `cache_file` write. -/
def convert_file (hashFn : List Nat → String)
    (converter : List Nat → String → Option (List Nat))
    (c : Cache) (file_bytes : List Nat) (filename : String)
    (quality : String) (now : ℚ) : ConvertResult :=
  let ext := strLower (splitext filename).2
  if SUPPORTED_VIDEO_EXTENSIONS.contains ext then
    let h := hashFn file_bytes
    match find_file c h .mp3 now with
    | (.error .expired, cNew) => ⟨.error .gone, false, cNew⟩
    | (.error .oserror, cNew) => ⟨.error .serverError, false, cNew⟩
    | (.ok (some cf), cNew) => ⟨.ok cf.file_bytes, false, cNew⟩
    | (.ok none, cNew) =>
      match converter file_bytes quality with
      | none => ⟨.error .serverError, true, cNew⟩
      | some out => ⟨.ok out, true, cache_file cNew h filename file_bytes out now⟩
  else ⟨.error .badRequest, false, c⟩

/-- `download_converted_cached_file` of `src/server.py`
(`GET /cache/dl/{file_id}`): `find_file(file_id, 'mp3')`; a missing
entry or empty payload bytes raise 404, the expired case propagates
the 410 from `find_file`, other exceptions become 500; otherwise the
payload is streamed back. -/
def download_converted_cached_file (c : Cache) (file_id : String) (now : ℚ) :
    Except HttpError (List Nat) × Cache :=
  match find_file c file_id .mp3 now with
  | (.error .expired, cNew) => (.error .gone, cNew)
  | (.error .oserror, cNew) => (.error .serverError, cNew)
  | (.ok none, cNew) => (.error .notFound, cNew)
  | (.ok (some cf), cNew) =>
    if cf.file_bytes.isEmpty then (.error .notFound, cNew)
    else (.ok cf.file_bytes, cNew)

/-- `download_original_cached_file` of `src/server.py`
(`GET /cache/dl/og/{file_id}`): same shape as the converted download
but with `find_file(file_id, 'video')`. -/
def download_original_cached_file (c : Cache) (file_id : String) (now : ℚ) :
    Except HttpError (List Nat) × Cache :=
  match find_file c file_id .video now with
  | (.error .expired, cNew) => (.error .gone, cNew)
  | (.error .oserror, cNew) => (.error .serverError, cNew)
  | (.ok none, cNew) => (.error .notFound, cNew)
  | (.ok (some cf), cNew) =>
    if cf.file_bytes.isEmpty then (.error .notFound, cNew)
    else (.ok cf.file_bytes, cNew)

/-- Rounding to the nearest integer with ties to even, which is what
Python's builtin `round` does. -/
def round_half_even (x : ℚ) : ℤ :=
  let f := ⌊x⌋
  if x - f < 1 / 2 then f
  else if 1 / 2 < x - f then f + 1
  else if f % 2 = 0 then f else f + 1

/-- Python `round(x, 2)`: round half to even at two decimal places
(the float representation idealized as exact rationals). -/
def pyRound2 (x : ℚ) : ℚ :=
  (round_half_even (x * 100) : ℚ) / 100

/-- Python builtin `max(a, b)`: the second argument replaces the first
exactly when it is strictly greater. -/
def pymax (a b : ℚ) : ℚ :=
  if a < b then b else a

/-- The `min_till_expire` computation of `view_cache` in
`src/server.py`: `max(round((expiry_date - time.time()) / 60, 2), 0)`. -/
def min_till_expire (expiry_date now : ℚ) : ℚ :=
  pymax (pyRound2 ((expiry_date - now) / 60)) 0

/-- The `schemas.CachedFileInfo` fields the response schema keeps
(`src/util/schemas.py`; the `thumbnail` and `file_extension` keyword
arguments passed by the handler are not schema fields and are
dropped). The `time_invalidate` string produced by `time.strftime` is
abstracted as the timestamp it renders. -/
structure CachedFileInfo where
  link_original : String
  link_converted : String
  time_invalidate : ℚ
  minutes_until_invalid : ℚ
deriving DecidableEq, Repr

/-- The `CachedFileInfo` value `view_cache` builds for one snapshot
entry (`src/server.py`): download links derived from the base URL and
the content hash, the expiry timestamp, and the floored
minutes-remaining. -/
def cachedFileInfo (base_url : String) (now : ℚ) (e : CachedFile) : CachedFileInfo :=
  { link_original := base_url ++ "cache/dl/og/" ++ e.video_file_hash
  , link_converted := base_url ++ "cache/dl/" ++ e.video_file_hash
  , time_invalidate := e.expiry_date
  , minutes_until_invalid := min_till_expire e.expiry_date now }

/-- Python dict assignment `m[k] = v`: an existing key keeps its slot
and gets the new value, a new key is appended at the end. -/
def dictInsert : List (String × CachedFileInfo) → String → CachedFileInfo →
    List (String × CachedFileInfo)
  | [], k, v => [(k, v)]
  | p :: rest, k, v => if p.1 == k then (k, v) :: rest else p :: dictInsert rest k v

/-- Dict lookup `m[k]`. -/
def dictFind (k : String) (m : List (String × CachedFileInfo)) : Option CachedFileInfo :=
  (m.find? (fun p => p.1 == k)).map Prod.snd

/-- The `pretty_cached_data` dictionary `view_cache` builds
(`src/server.py`): one pass over the published snapshot, assigning
`pretty_cached_data[file.filename] = CachedFileInfo(...)` — keyed by
the entry's base filename, so a later entry with the same filename
overwrites an earlier one. -/
def view_cache_build (base_url : String) (now : ℚ) (s : List CachedFile) :
    List (String × CachedFileInfo) :=
  s.foldl (fun m e => dictInsert m e.filename (cachedFileInfo base_url now e)) []

/-- A published listing snapshot: the value `view_info` produces and
`produce_cache` enqueues. -/
abbrev Snapshot := List CachedFile

/-- The shared state of the listing pipeline in `src/server.py`: the
`cached_data_q` queue (`queue.Queue()`, an unbounded FIFO) and the
`cached_data` global the consumer publishes into (initially `None`). -/
structure PCState where
  queue : List Snapshot
  published : Option Snapshot
deriving DecidableEq, Repr

/-- One interleaving step of the background loops of `src/server.py`:
`produce` is one `produce_cache` iteration (`q.put(view_info())`,
enqueuing at the back); `consumeHit` is one `consume_cache` iteration
whose `q.get_nowait()` succeeds, removing the front element and
publishing it; `consumeMiss` is a `consume_cache` iteration that hits
`queue.Empty` and leaves the state unchanged. -/
inductive PCStep : PCState → PCState → Prop
  | produce (s : PCState) (v : Snapshot) :
      PCStep s ⟨s.queue ++ [v], s.published⟩
  | consumeHit (s : PCState) (v : Snapshot) (rest : List Snapshot)
      (h : s.queue = v :: rest) :
      PCStep s ⟨rest, some v⟩
  | consumeMiss (s : PCState) (h : s.queue = []) :
      PCStep s s

/-- States of the listing pipeline reachable from startup (empty
queue, `cached_data = None`) by any interleaving of producer and
consumer iterations. -/
inductive PCReachable : PCState → Prop
  | init : PCReachable ⟨[], none⟩
  | step {s t : PCState} : PCReachable s → PCStep s t → PCReachable t

/-! ## Helper lemmas -/

/-- After `shutil.rmtree`, the hash resolves to no directory. -/
theorem lookupDir_removeDir (h : String) (c : Cache) :
    lookupDir h (removeDir h c) = none := by
  induction c with
  | nil => rfl
  | cons p rest ih =>
    cases hpb : p.1 == h with
    | true =>
      simp only [removeDir, List.filter_cons, hpb, Bool.not_true, if_false] at ih ⊢
      exact ih
    | false =>
      simp only [removeDir, List.filter_cons, hpb, Bool.not_false, if_true] at ih ⊢
      simp only [lookupDir, List.find?_cons, hpb] at ih ⊢
      exact ih

/-- Dict lookup after dict assignment: the assigned key now maps to the
assigned value, every other key is untouched. -/
theorem dictFind_dictInsert (m : List (String × CachedFileInfo)) (k2 k : String)
    (v : CachedFileInfo) :
    dictFind k (dictInsert m k2 v) = if k = k2 then some v else dictFind k m := by
  induction m with
  | nil =>
    by_cases hk : k = k2
    · subst hk; simp [dictInsert, dictFind]
    · have h1 : (k2 == k) = false := beq_eq_false_iff_ne.mpr (fun h => hk h.symm)
      simp [dictInsert, dictFind, h1, hk]
  | cons p rest ih =>
    by_cases hp : p.1 = k2
    · have hpb : (p.1 == k2) = true := beq_iff_eq.mpr hp
      by_cases hk : k = k2
      · subst hk
        simp [dictInsert, dictFind, hpb]
      · have h2 : (k2 == k) = false := beq_eq_false_iff_ne.mpr (fun h => hk h.symm)
        have h3 : (p.1 == k) = false := by
          refine beq_eq_false_iff_ne.mpr (fun h => hk ?_)
          rw [← h, hp]
        simp [dictInsert, dictFind, hpb, h2, h3, hk]
    · have hpb : (p.1 == k2) = false := beq_eq_false_iff_ne.mpr hp
      by_cases hk2 : p.1 = k
      · have hk : ¬ k = k2 := fun h => hp (by rw [hk2, h])
        have h3 : (p.1 == k) = true := beq_iff_eq.mpr hk2
        simp [dictInsert, dictFind, hpb, h3, hk]
      · have h3 : (p.1 == k) = false := beq_eq_false_iff_ne.mpr hk2
        simp only [dictInsert, hpb, Bool.false_eq_true, if_false]
        simp only [dictFind, List.find?, h3] at ih ⊢
        exact ih

/-- The keys after a dict assignment are the old keys plus the
assigned key. -/
theorem mem_keys_dictInsert (m : List (String × CachedFileInfo)) (k x : String)
    (v : CachedFileInfo) :
    x ∈ (dictInsert m k v).map Prod.fst ↔ x ∈ m.map Prod.fst ∨ x = k := by
  induction m with
  | nil => simp [dictInsert]
  | cons p rest ih =>
    by_cases hp : p.1 = k
    · have hpb : (p.1 == k) = true := beq_iff_eq.mpr hp
      simp [dictInsert, hpb, hp]
      tauto
    · have hpb : (p.1 == k) = false := beq_eq_false_iff_ne.mpr hp
      simp [dictInsert, hpb, ih]
      tauto

/-- Dict assignment preserves key uniqueness. -/
theorem nodup_keys_dictInsert (m : List (String × CachedFileInfo)) (k : String)
    (v : CachedFileInfo) (hm : (m.map Prod.fst).Nodup) :
    ((dictInsert m k v).map Prod.fst).Nodup := by
  induction m with
  | nil => simp [dictInsert]
  | cons p rest ih =>
    by_cases hp : p.1 = k
    · have hpb : (p.1 == k) = true := beq_iff_eq.mpr hp
      simp only [dictInsert, hpb, if_true, List.map_cons, List.nodup_cons] at hm ⊢
      rw [← hp]
      exact hm
    · have hpb : (p.1 == k) = false := beq_eq_false_iff_ne.mpr hp
      simp only [List.map_cons, List.nodup_cons] at hm
      simp only [dictInsert, hpb, Bool.false_eq_true, if_false, List.map_cons, List.nodup_cons]
      refine ⟨fun hmem => ?_, ih hm.2⟩
      rcases (mem_keys_dictInsert rest k p.1 v).mp hmem with h | h
      · exact hm.1 h
      · exact hp h

/-- Dict assignment grows the dict by at most one slot. -/
theorem length_dictInsert_le (m : List (String × CachedFileInfo)) (k : String)
    (v : CachedFileInfo) :
    (dictInsert m k v).length ≤ m.length + 1 := by
  induction m with
  | nil => simp [dictInsert]
  | cons p rest ih =>
    by_cases hp : (p.1 == k) = true
    · simp [dictInsert, hp]
    · simp only [Bool.not_eq_true] at hp
      simp [dictInsert, hp]
      omega

/-- Assigning to a key that is already present does not grow the dict. -/
theorem length_dictInsert_mem (m : List (String × CachedFileInfo)) (k : String)
    (v : CachedFileInfo) (hk : k ∈ m.map Prod.fst) :
    (dictInsert m k v).length = m.length := by
  induction m with
  | nil => simp at hk
  | cons p rest ih =>
    by_cases hp : (p.1 == k) = true
    · simp [dictInsert, hp]
    · simp only [Bool.not_eq_true] at hp
      have hp2 : ¬ p.1 = k := by simpa [beq_eq_false_iff_ne] using hp
      simp only [List.map_cons, List.mem_cons] at hk
      rcases hk with h | h
      · exact absurd h.symm hp2
      · simp [dictInsert, hp, ih h]

/-- One more snapshot entry is one more dict assignment. -/
theorem view_cache_build_concat (base_url : String) (now : ℚ) (s : List CachedFile)
    (e : CachedFile) :
    view_cache_build base_url now (s ++ [e]) =
      dictInsert (view_cache_build base_url now s) e.filename
        (cachedFileInfo base_url now e) := by
  simp [view_cache_build, List.foldl_append]

/-- The listing response maps a filename to the info of the LAST
snapshot entry carrying that filename (later entries overwrite earlier
ones), and to nothing when no entry carries it. -/
theorem dictFind_view_cache_build (base_url : String) (now : ℚ) (s : List CachedFile)
    (k : String) :
    dictFind k (view_cache_build base_url now s) =
      (s.reverse.find? (fun e => e.filename == k)).map (cachedFileInfo base_url now) := by
  induction s using List.reverseRecOn with
  | nil => rfl
  | append_singleton s0 e ih =>
    rw [view_cache_build_concat, dictFind_dictInsert]
    by_cases hk : k = e.filename
    · have hb : (e.filename == k) = true := beq_iff_eq.mpr hk.symm
      simp [hk, List.reverse_append, hb]
    · have hb : (e.filename == k) = false := beq_eq_false_iff_ne.mpr (fun h => hk h.symm)
      simp [hk, List.reverse_append, hb, ih]

/-- The listing response never holds two slots for the same filename. -/
theorem view_cache_build_keys_nodup (base_url : String) (now : ℚ) (s : List CachedFile) :
    ((view_cache_build base_url now s).map Prod.fst).Nodup := by
  induction s using List.reverseRecOn with
  | nil => simp [view_cache_build]
  | append_singleton s0 e ih =>
    rw [view_cache_build_concat]
    exact nodup_keys_dictInsert _ _ _ ih

/-- The listing response has a slot for a filename exactly when some
snapshot entry carries it. -/
theorem mem_keys_view_cache_build (base_url : String) (now : ℚ) (s : List CachedFile)
    (k : String) :
    k ∈ (view_cache_build base_url now s).map Prod.fst ↔ ∃ e ∈ s, e.filename = k := by
  induction s using List.reverseRecOn with
  | nil => simp [view_cache_build]
  | append_singleton s0 e ih =>
    rw [view_cache_build_concat, mem_keys_dictInsert, ih]
    constructor
    · rintro (⟨e2, he2, hk⟩ | hk)
      · exact ⟨e2, by simp [he2], hk⟩
      · exact ⟨e, by simp, hk.symm⟩
    · rintro ⟨e2, he2, hk⟩
      rcases List.mem_append.mp he2 with h | h
      · exact Or.inl ⟨e2, h, hk⟩
      · simp only [List.mem_singleton] at h
        subst h
        exact Or.inr hk.symm

/-- The listing response has at most one slot per snapshot entry. -/
theorem length_view_cache_build_le (base_url : String) (now : ℚ) (s : List CachedFile) :
    (view_cache_build base_url now s).length ≤ s.length := by
  induction s using List.reverseRecOn with
  | nil => simp [view_cache_build]
  | append_singleton s0 e ih =>
    rw [view_cache_build_concat]
    calc (dictInsert (view_cache_build base_url now s0) e.filename
            (cachedFileInfo base_url now e)).length
        ≤ (view_cache_build base_url now s0).length + 1 := length_dictInsert_le _ _ _
      _ ≤ s0.length + 1 := by omega
      _ = (s0 ++ [e]).length := by simp

/-- Flooring at zero indeed never returns a negative value. -/
theorem pymax_zero_nonneg (x : ℚ) : 0 ≤ pymax x 0 := by
  unfold pymax
  split
  · exact le_refl 0
  · next h => exact not_lt.mp h

/-! ## Claim theorems -/

/-- C1: for every upload whose bytes hash to a previously stored,
fully-written, non-expired cache entry (same content hash, current
time before `expiry_at`), the `/convert/` handler returns the stored
converted bytes and does not invoke the external converter (and leaves
the cache tree unchanged). The upload is assumed to pass the extension
allow-list, which the handler checks before any hashing. -/
theorem convert_cache_hit_skips_converter (hashFn : List Nat → String)
    (converter : List Nat → String → Option (List Nat))
    (c : Cache) (b : List Nat) (filename quality : String) (now : ℚ)
    (d : Dir) (meta : Meta) (conv : List Nat)
    (hext : SUPPORTED_VIDEO_EXTENSIONS.contains (strLower (splitext filename).2) = true)
    (hdir : lookupDir (hashFn b) c = some d)
    (hlen : d.length = 3)
    (hmeta : lookupFile "metadata.json" d = some (.json meta))
    (hfresh : now < meta.expiry_date)
    (hconv : lookupFile (targetName meta .mp3) d = some (.bin conv)) :
    convert_file hashFn converter c b filename quality now = ⟨.ok conv, false, c⟩ := by
  have hnl : ¬ meta.expiry_date < now := not_lt.mpr (le_of_lt hfresh)
  simp [convert_file, find_file, hext, hdir, hlen, hmeta, hnl, hconv]
  simpa using hext

/-- C1 witness: a concrete second upload of bytes `[1]` against a
cache holding their conversion, before expiry. -/
theorem convert_cache_hit_skips_converter_witness :
    (50 : ℚ) < 100 ∧
    convert_file (fun _ => "h") (fun _ _ => none)
      [("h", [("clip.mp4", .bin [1]), ("clip.mp3", .bin [9]),
        ("metadata.json", .json ⟨100, "clip", ".mp4"⟩)])]
      [1] "clip.mp4" "best" 50 =
      ⟨.ok [9], false,
        [("h", [("clip.mp4", .bin [1]), ("clip.mp3", .bin [9]),
          ("metadata.json", .json ⟨100, "clip", ".mp4"⟩)])]⟩ :=
  ⟨by decide,
    convert_cache_hit_skips_converter (fun _ => "h") (fun _ _ => none)
      [("h", [("clip.mp4", .bin [1]), ("clip.mp3", .bin [9]),
        ("metadata.json", .json ⟨100, "clip", ".mp4"⟩)])]
      [1] "clip.mp4" "best" 50
      [("clip.mp4", .bin [1]), ("clip.mp3", .bin [9]),
        ("metadata.json", .json ⟨100, "clip", ".mp4"⟩)]
      ⟨100, "clip", ".mp4"⟩ [9]
      (by decide) rfl rfl rfl (by decide) rfl⟩

/-- C2: for a fully-written cache entry whose `expiry_date` has
passed, the next `find_file` for that hash fails with the 410
`Expired` error (not a `None` result) and deletes the entry directory;
any later `find_file` for the same hash returns `None` (absent), not
`Expired` again. -/
theorem find_file_expired_deletes_then_absent (c : Cache) (h : String)
    (kind kind2 : FileKind) (now now2 : ℚ) (d : Dir) (meta : Meta)
    (hdir : lookupDir h c = some d) (hlen : d.length = 3)
    (hmeta : lookupFile "metadata.json" d = some (.json meta))
    (hexp : meta.expiry_date < now) :
    find_file c h kind now = (.error .expired, removeDir h c) ∧
    find_file (removeDir h c) h kind2 now2 = (.ok none, removeDir h c) := by
  refine ⟨by simp [find_file, hdir, hlen, hmeta, hexp], ?_⟩
  simp [find_file, lookupDir_removeDir]

/-- C2 witness: an entry that expired at time 5, looked up at times 10
and 11. -/
theorem find_file_expired_deletes_then_absent_witness :
    (5 : ℚ) < 10 ∧
    find_file [("h", [("a.mp4", .bin [1]), ("a.mp3", .bin [9]),
        ("metadata.json", .json ⟨5, "a", ".mp4"⟩)])] "h" .mp3 10 =
      (.error .expired, []) ∧
    find_file [] "h" .mp3 11 = (.ok none, []) := by
  have hw := find_file_expired_deletes_then_absent
    [("h", [("a.mp4", .bin [1]), ("a.mp3", .bin [9]),
      ("metadata.json", .json ⟨5, "a", ".mp4"⟩)])] "h" .mp3 .mp3 10 11
    [("a.mp4", .bin [1]), ("a.mp3", .bin [9]), ("metadata.json", .json ⟨5, "a", ".mp4"⟩)]
    ⟨5, "a", ".mp4"⟩ rfl rfl rfl (by decide)
  exact ⟨by decide, hw.1, hw.2⟩

/-- C3: the claim says a directory without exactly three members is
excluded both from the `view_info` scan result and from `find_file`
hits. The code behavior at the failing input — a two-member directory
holding `metadata.json` and one payload, exactly what a crash between
the payload writes and the metadata write leaves behind when the
payload write order differs, or what a manually truncated entry looks
like — is: `find_file` does exclude it (its check is `== 3`), but the
scan's check is `len(...) > 3`, so the scan SURFACES the partial entry
in the listing. -/
theorem view_info_surfaces_midwrite_dir :
    view_info [("h", [("metadata.json", .json ⟨100, "a", ".mp4"⟩), ("a.mp4", .bin [1, 2])])] =
      some [⟨"a", "h", 100, [48], ".mp4"⟩] ∧
    (find_file [("h", [("metadata.json", .json ⟨100, "a", ".mp4"⟩), ("a.mp4", .bin [1, 2])])]
        "h" .mp3 50).1 = .ok none :=
  ⟨rfl, rfl⟩

/-- C4 counterexample: the claim says every entry in the `view_info`
output has `expiry_date` at or after the current time. Concretely, an
entry that expired at time 5 is still produced by the scan, so at
current time 10 the claim fails. -/
theorem view_info_lists_expired_entry_cx :
    view_info [("h", [("a.mp4", .bin [1]), ("a.mp3", .bin [9]),
        ("metadata.json", .json ⟨5, "a", ".mp4"⟩)])] =
      some [⟨"a", "h", 5, [48], ".mp4"⟩] ∧ (5 : ℚ) < 10 :=
  ⟨rfl, by decide⟩

/-- C4 amended: `view_info` applies no expiry filter at all — its
output depends only on the directory contents, and an entry whose
`expiry_date` has already passed (with respect to any current time)
still appears in the scan result; expired entries leave the listing
only once the reaper (or a lazy-expiry lookup) deletes them. -/
theorem view_info_no_expiry_filter (c : Cache) (h : String) (d : Dir) (meta : Meta)
    (now : ℚ) (l : List CachedFile) (f : String) (cont : FsFile)
    (hlen : ¬ 3 < d.length)
    (hmeta : lookupFile "metadata.json" d = some (.json meta))
    (hfirst : d.find? (fun p => !(strEndsWith p.1 "json")) = some (f, cont))
    (hscan : view_info ((h, d) :: c) = some l)
    (_hexp : meta.expiry_date < now) :
    (⟨takeBeforeDot f, h, meta.expiry_date, [48], meta.file_ext⟩ : CachedFile) ∈ l := by
  unfold view_info view_info_pass at hscan
  rw [if_neg hlen, hmeta, hfirst] at hscan
  cases hrest : view_info_pass c with
  | ok l2 =>
    rw [hrest] at hscan
    simp [Except.toOption] at hscan
    subst hscan
    exact List.mem_cons_self _ _
  | error e =>
    rw [hrest] at hscan
    simp [Except.toOption] at hscan

/-- C4 amended witness: the expired entry of the counterexample is in
the scan output at current time 10. -/
theorem view_info_no_expiry_filter_witness :
    (5 : ℚ) < 10 ∧
    (⟨"a", "h", 5, [48], ".mp4"⟩ : CachedFile) ∈ [(⟨"a", "h", 5, [48], ".mp4"⟩ : CachedFile)] :=
  ⟨by decide,
    view_info_no_expiry_filter []
      "h" [("a.mp4", .bin [1]), ("a.mp3", .bin [9]), ("metadata.json", .json ⟨5, "a", ".mp4"⟩)]
      ⟨5, "a", ".mp4"⟩ 10 [⟨"a", "h", 5, [48], ".mp4"⟩] "a.mp4" (.bin [1])
      (by decide) rfl rfl rfl (by decide)⟩

/-- C5 counterexample: the claim says a failure on one entry does not
abort the reaper sweep and every remaining expired entry is still
deleted in that sweep. Concretely, with a first folder whose
`metadata.json` is missing (raising inside the loop) and a second
folder long expired (`expiry_date` 5, current time 1000), the sweep
aborts with the exception and the expired folder is NOT deleted. -/
theorem expiry_job_abort_cx :
    expiry_job 1000 [("bad", [("a.mp4", .bin [1])]),
      ("old", [("a.mp4", .bin [1]), ("a.mp3", .bin [9]),
        ("metadata.json", .json ⟨5, "a", ".mp4"⟩)])] =
      .error [("bad", [("a.mp4", .bin [1])]),
        ("old", [("a.mp4", .bin [1]), ("a.mp3", .bin [9]),
          ("metadata.json", .json ⟨5, "a", ".mp4"⟩)])] ∧ (5 : ℚ) < 1000 :=
  ⟨rfl, by decide⟩

/-- C5 amended: `expiry_job` has no per-entry exception handling: a
failure while processing one entry (here, unreadable metadata)
propagates and aborts the sweep, leaving the failing entry and every
entry after it in iteration order — expired ones included — undeleted
in that sweep. -/
theorem expiry_job_aborts_on_bad_entry (now : ℚ) (h : String) (d : Dir) (rest : Cache)
    (hbad : lookupFile "metadata.json" d = none) :
    expiry_job now ((h, d) :: rest) = .error ((h, d) :: rest) := by
  unfold expiry_job
  rw [hbad]

/-- C5 amended witness: the counterexample state, sweep at time 7. -/
theorem expiry_job_aborts_on_bad_entry_witness :
    lookupFile "metadata.json" [("a.mp4", FsFile.bin [1])] = none ∧
    expiry_job 7 [("bad", [("a.mp4", .bin [1])]), ("x", [])] =
      .error [("bad", [("a.mp4", .bin [1])]), ("x", [])] :=
  ⟨rfl, expiry_job_aborts_on_bad_entry 7 "bad" [("a.mp4", .bin [1])] [("x", [])] rfl⟩

/-- C6 counterexample: the claim says the hand-off buffer holds at
most one pending value in every reachable state. The state with two
pending snapshots in the queue is reachable from startup by two
producer iterations with no intervening consumer iteration. -/
theorem queue_two_pending_reachable_cx :
    PCReachable ⟨[[], []], none⟩ ∧ (PCState.mk [[], []] none).queue.length = 2 :=
  ⟨.step (.step .init (.produce ⟨[], none⟩ [])) (.produce ⟨[[]], none⟩ []), rfl⟩

/-- C6 amended: `cached_data_q` is an unbounded FIFO queue, not a
one-slot buffer: each producer iteration enqueues behind any
unconsumed prior values (nothing is overwritten), each consumer
iteration removes at most the front value, and the number of pending
values reaches every bound under producer-heavy interleavings. -/
theorem queue_pending_unbounded (n : Nat) :
    ∃ s : PCState, PCReachable s ∧ s.queue.length = n := by
  induction n with
  | zero => exact ⟨⟨[], none⟩, .init, rfl⟩
  | succ k ih =>
    obtain ⟨s, hr, hl⟩ := ih
    exact ⟨⟨s.queue ++ [[]], s.published⟩, .step hr (.produce s []), by simp [hl]⟩

/-- C7: every entry of the listing view built by `view_cache` has a
non-negative `minutes_until_invalid`, even when it is computed at a
time past the entry's expiry (`max(round(...), 0)` floors it at
zero). -/
theorem minutes_until_invalid_nonneg (base_url : String) (now : ℚ)
    (s : List CachedFile) (k : String) (i : CachedFileInfo)
    (hk : dictFind k (view_cache_build base_url now s) = some i) :
    0 ≤ i.minutes_until_invalid := by
  rw [dictFind_view_cache_build] at hk
  rcases Option.map_eq_some'.mp hk with ⟨e, hfind, hi⟩
  subst hi
  exact pymax_zero_nonneg _

/-- C7 witness: an entry already expired for 60 seconds still shows 0
minutes remaining, not -1. -/
theorem minutes_until_invalid_nonneg_witness :
    dictFind "a" (view_cache_build "u/" 120 [⟨"a", "h", 60, [48], ".mp4"⟩]) =
      some ⟨"u/cache/dl/og/h", "u/cache/dl/h", 60, 0⟩ ∧
    (0 : ℚ) ≤ (⟨"u/cache/dl/og/h", "u/cache/dl/h", 60, 0⟩ : CachedFileInfo).minutes_until_invalid := by
  have hk : dictFind "a" (view_cache_build "u/" 120 [⟨"a", "h", 60, [48], ".mp4"⟩]) =
      some ⟨"u/cache/dl/og/h", "u/cache/dl/h", 60, 0⟩ := by
    have hfr : Int.fract ((-100 : ℚ)) = 0 := by
      rw [Int.fract]
      norm_num
    norm_num [view_cache_build, dictInsert, dictFind, cachedFileInfo, min_till_expire,
      pyRound2, round_half_even, pymax, hfr]
    exact ⟨by decide, by decide⟩
  exact ⟨hk, minutes_until_invalid_nonneg "u/" 120 [⟨"a", "h", 60, [48], ".mp4"⟩] "a"
    ⟨"u/cache/dl/og/h", "u/cache/dl/h", 60, 0⟩ hk⟩

/-- C8: each enumerated quality option is mapped to its converter
parameter (`low` to 8, `medium` to 5, `high` to 2, `best` to 0), and
any quality value that is not one of the enumerated options (its
lowercasing is not a `QUALITY_MAP` key — the code lowercases before
the lookup) falls back to the `best` mapping instead of failing. -/
theorem quality_fallback_to_best :
    q_value "low" = 8 ∧ q_value "medium" = 5 ∧ q_value "high" = 2 ∧ q_value "best" = 0 ∧
    ∀ q : String, qualityLookup (strLower q) = none → q_value q = q_value "best" := by
  refine ⟨rfl, rfl, rfl, rfl, fun q hq => ?_⟩
  unfold q_value
  rw [hq]
  rfl

/-- C8 witness: the unknown quality `"Ultra"` uses the `best`
parameter. -/
theorem quality_fallback_to_best_witness :
    qualityLookup (strLower "Ultra") = none ∧ q_value "Ultra" = q_value "best" :=
  ⟨by decide, quality_fallback_to_best.2.2.2.2 "Ultra" (by decide)⟩

/-- C9: the `/cache/` response dictionary is keyed by each entry's
base filename, so when a snapshot contains two entries with equal
filenames (and different hashes), the key maps to the later-iterated
entry's info (the earlier one is silently overwritten), the response
has no second slot for the filename (keys are unique), and the
response has strictly fewer slots than the snapshot has entries — not
every snapshot entry is represented. -/
theorem view_cache_keyed_by_filename_overwrites (base_url : String) (now : ℚ)
    (s1 s2 : List CachedFile) (e1 e2 : CachedFile)
    (hname : e1.filename = e2.filename) :
    dictFind e1.filename (view_cache_build base_url now (s1 ++ [e1] ++ s2 ++ [e2])) =
      some (cachedFileInfo base_url now e2) ∧
    ((view_cache_build base_url now (s1 ++ [e1] ++ s2 ++ [e2])).map Prod.fst).Nodup ∧
    (view_cache_build base_url now (s1 ++ [e1] ++ s2 ++ [e2])).length <
      (s1 ++ [e1] ++ s2 ++ [e2]).length := by
  refine ⟨?_, view_cache_build_keys_nodup _ _ _, ?_⟩
  · rw [dictFind_view_cache_build]
    have hb : (e2.filename == e1.filename) = true := beq_iff_eq.mpr hname.symm
    simp [List.reverse_append, hb]
  · have hpre : (s1 ++ [e1] ++ s2 ++ [e2]) = (s1 ++ [e1] ++ s2) ++ [e2] := by simp
    rw [hpre, view_cache_build_concat]
    have hkmem : e2.filename ∈ (view_cache_build base_url now (s1 ++ [e1] ++ s2)).map Prod.fst := by
      rw [mem_keys_view_cache_build]
      exact ⟨e1, by simp, hname⟩
    rw [length_dictInsert_mem _ _ _ hkmem]
    have := length_view_cache_build_le base_url now (s1 ++ [e1] ++ s2)
    simp only [List.length_append, List.length_singleton] at this ⊢
    omega

/-- C9 witness: two entries named `a` with hashes `h1` and `h2`; the
response key `a` holds the second entry's links and only one slot
exists for the two entries. -/
theorem view_cache_keyed_by_filename_overwrites_witness :
    ("a" : String) = "a" ∧
    dictFind "a" (view_cache_build "u/" 0
        ([] ++ [(⟨"a", "h1", 60, [48], ".mp4"⟩ : CachedFile)] ++ [] ++ [(⟨"a", "h2", 120, [48], ".mp4"⟩ : CachedFile)])) =
      some (cachedFileInfo "u/" 0 ⟨"a", "h2", 120, [48], ".mp4"⟩) ∧
    (view_cache_build "u/" 0
        ([] ++ [(⟨"a", "h1", 60, [48], ".mp4"⟩ : CachedFile)] ++ [] ++ [(⟨"a", "h2", 120, [48], ".mp4"⟩ : CachedFile)])).length <
      ([] ++ [(⟨"a", "h1", 60, [48], ".mp4"⟩ : CachedFile)] ++ [] ++ [(⟨"a", "h2", 120, [48], ".mp4"⟩ : CachedFile)]).length := by
  have hw := view_cache_keyed_by_filename_overwrites "u/" 0 [] []
    ⟨"a", "h1", 60, [48], ".mp4"⟩ ⟨"a", "h2", 120, [48], ".mp4"⟩ rfl
  exact ⟨rfl, hw.1, hw.2.2⟩

/-- C10: for a fully-written, non-expired entry whose stored payload
file is empty, the download endpoints (converted and original) respond
404 rather than serving the empty payload, even though `find_file`
itself succeeded. -/
theorem empty_payload_download_not_found (c : Cache) (h : String) (now : ℚ)
    (d : Dir) (meta : Meta)
    (hdir : lookupDir h c = some d) (hlen : d.length = 3)
    (hmeta : lookupFile "metadata.json" d = some (.json meta))
    (hfresh : ¬ meta.expiry_date < now) :
    (lookupFile (targetName meta .mp3) d = some (.bin []) →
      (download_converted_cached_file c h now).1 = .error .notFound) ∧
    (lookupFile (targetName meta .video) d = some (.bin []) →
      (download_original_cached_file c h now).1 = .error .notFound) := by
  constructor
  · intro hempty
    simp [download_converted_cached_file, find_file, hdir, hlen, hmeta, hfresh, hempty]
  · intro hempty
    simp [download_original_cached_file, find_file, hdir, hlen, hmeta, hfresh, hempty]

/-- C10 witness: an entry with both payloads empty; both downloads
respond 404 at time 50 (before the expiry at 100). -/
theorem empty_payload_download_not_found_witness :
    ¬ ((100 : ℚ) < 50) ∧
    (download_converted_cached_file
        [("h", [("a.mp4", .bin []), ("a.mp3", .bin []),
          ("metadata.json", .json ⟨100, "a", ".mp4"⟩)])] "h" 50).1 = .error .notFound ∧
    (download_original_cached_file
        [("h", [("a.mp4", .bin []), ("a.mp3", .bin []),
          ("metadata.json", .json ⟨100, "a", ".mp4"⟩)])] "h" 50).1 = .error .notFound := by
  have hw := empty_payload_download_not_found
    [("h", [("a.mp4", .bin []), ("a.mp3", .bin []),
      ("metadata.json", .json ⟨100, "a", ".mp4"⟩)])] "h" 50
    [("a.mp4", .bin []), ("a.mp3", .bin []), ("metadata.json", .json ⟨100, "a", ".mp4"⟩)]
    ⟨100, "a", ".mp4"⟩ rfl rfl rfl (by decide)
  exact ⟨by decide, hw.1 rfl, hw.2 rfl⟩

end ConvertionApi
